import Mathlib

/-!
Verification of `multi_agent_refactor.py`, a four-stage LLM refactoring
pipeline (Analyze, Refactor, Document, Review) over the Python files of a
project directory.

Shallow embedding conventions:
* The filesystem and the log of generation-service calls form a `World`
  record that every stage threads explicitly.  A file read that would raise
  in Python is a `RunError.readError`; indexing a missing key of the
  analysis dict is a `RunError.keyError`.  As in Python, an uncaught error
  does not roll back the state, so stage functions return
  `Except RunError _ × World`.
* The external generation service (`client.chat.completions.create`) is an
  abstract function `oracle : String → String → String` from the system and
  user messages to the reply text, exactly as the spec treats it.
* The Python `json.loads` function is likewise external library code; it is
  modelled as an abstract total decoder `jl : String → Option Json` where `none`
  stands for any raised decode error (the bare `except:` of the source
  catches every error class uniformly).
* `os.walk` runs over an explicit directory tree `DirTree`; a directory
  whose `readable` flag is `false` models a directory whose `scandir` call
  raises (permission error etc.); with the default `onerror=None`,
  `os.walk` ignores such errors and skips the directory.
-/

/-- JSON values, as produced by decoding a service reply.  Numbers are
modelled as integers; nothing in the pipeline inspects numeric values. -/
inductive Json where
  | null : Json
  | bool : Bool → Json
  | num : Int → Json
  | str : String → Json
  | arr : List Json → Json
  | obj : List (String × Json) → Json

/-- Process state: the files on disk plus the chronological log of
generation-service calls (system message, user message). -/
structure World where
  fs : String → Option String
  calls : List (String × String)

/-- The uncaught exceptions the pipeline can raise. -/
inductive RunError where
  | readError (path : String)
  | keyError (path : String)
deriving DecidableEq

/-- Model of `read_file(path)`: `none` models the raised I/O error when the file is
absent. -/
def read_file (w : World) (path : String) : Option String :=
  w.fs path

/-- Model of `write_file(path, content)`: whole-file overwrite at the original path. -/
def write_file (w : World) (path : String) (content : String) : World :=
  { w with fs := fun p => if p = path then some content else w.fs p }

/-- Python `s.endswith(t)`: the characters of `t` are a suffix of the
characters of `s`. -/
def str_ends_with (s : String) (t : String) : Bool :=
  decide (s.data.drop (s.data.length - t.data.length) = t.data)

/-- Model of `os.path.join(root, file)` for the paths arising from a walk. -/
def os_path_join (a : String) (b : String) : String :=
  if a = "" then b
  else if str_ends_with a "/" then a ++ b
  else a ++ "/" ++ b

/-- A directory: its scannability, its plain files, and its named
subdirectories. -/
inductive DirTree where
  | node (readable : Bool) (filenames : List String) (subdirs : List (String × DirTree))

mutual

/-- Model of `os.walk(root)` (top-down, `onerror=None`): the sequence of
`(dirpath, filenames)` pairs.  A directory whose scan raises yields
nothing and is not recursed into — the error is ignored. -/
def os_walk (root : String) : DirTree → List (String × List String)
  | .node readable filenames subdirs =>
    if readable then (root, filenames) :: os_walk_list root subdirs else []

/-- The walk of a list of named subdirectories, in order. -/
def os_walk_list (root : String) : List (String × DirTree) → List (String × List String)
  | [] => []
  | nt :: rest => os_walk (os_path_join root nt.1) nt.2 ++ os_walk_list root rest

end

/-- Model of `list_python_files(folder)`: every walked file whose name ends in
`.py`, joined to its directory path, in traversal order. -/
def list_python_files (folder : String) (tree : DirTree) : List String :=
  (os_walk folder tree).flatMap
    (fun rf => (rf.2.filter (fun file => str_ends_with file ".py")).map
      (fun file => os_path_join rf.1 file))

mutual

/-- All `(dirpath, filename)` pairs of the tree in traversal order,
regardless of readability: the files that are actually under the
directory. -/
def all_entries (root : String) : DirTree → List (String × String)
  | .node _ filenames subdirs =>
    filenames.map (fun file => (root, file)) ++ all_entries_list root subdirs

/-- Extension of `all_entries` over a list of named subdirectories. -/
def all_entries_list (root : String) : List (String × DirTree) → List (String × String)
  | [] => []
  | nt :: rest => all_entries (os_path_join root nt.1) nt.2 ++ all_entries_list root rest

end

mutual

/-- Every directory of the tree can be scanned without error. -/
def all_readable : DirTree → Bool
  | .node readable _ subdirs => readable && all_readable_list subdirs

/-- Extension of `all_readable` over a list of named subdirectories. -/
def all_readable_list : List (String × DirTree) → Bool
  | [] => true
  | nt :: rest => all_readable nt.2 && all_readable_list rest

end

/-- Model of `call_agent(system_msg, user_msg)`: one synchronous round trip to the
generation service; the call is appended to the log and the reply text
returned. -/
def call_agent (oracle : String → String → String) (system_msg : String)
    (user_msg : String) (w : World) : String × World :=
  (oracle system_msg user_msg, { w with calls := w.calls ++ [(system_msg, user_msg)] })

/-- One character of Python `json.dumps` string escaping (the escapes
relevant to the strings arising here). -/
def json_escape_char (c : Char) : String :=
  if c = '"' then "\\\""
  else if c = '\\' then "\\\\"
  else if c = '\n' then "\\n"
  else if c = '\t' then "\\t"
  else if c = '\r' then "\\r"
  else String.singleton c

/-- A JSON string literal with its quotes. -/
def json_quote (s : String) : String :=
  "\"" ++ String.join (s.toList.map json_escape_char) ++ "\""

/-- A run of `n` spaces of indentation. -/
def indent_spaces (n : Nat) : String :=
  String.mk (List.replicate n ' ')

mutual

/-- Model of `json.dumps(v, indent=2)` at a given current indentation level. -/
def json_dumps_level (lvl : Nat) : Json → String
  | .null => "null"
  | .bool true => "true"
  | .bool false => "false"
  | .num n => toString n
  | .str s => json_quote s
  | .arr [] => "[]"
  | .arr (x :: xs) =>
    "[\n" ++ String.intercalate ",\n"
      (json_dumps_items (lvl + 2) (x :: xs)) ++ "\n" ++ indent_spaces lvl ++ "]"
  | .obj [] => "\x7b\x7d"
  | .obj (kv :: kvs) =>
    "\x7b\n" ++ String.intercalate ",\n"
      (json_dumps_fields (lvl + 2) (kv :: kvs)) ++ "\n" ++ indent_spaces lvl ++ "\x7d"

/-- Array items, each on its own indented line. -/
def json_dumps_items (lvl : Nat) : List Json → List String
  | [] => []
  | x :: xs => (indent_spaces lvl ++ json_dumps_level lvl x) :: json_dumps_items lvl xs

/-- Object fields, each on its own indented line as `"key": value`. -/
def json_dumps_fields (lvl : Nat) : List (String × Json) → List String
  | [] => []
  | kv :: kvs =>
    (indent_spaces lvl ++ json_quote kv.1 ++ ": " ++ json_dumps_level lvl kv.2)
      :: json_dumps_fields lvl kvs

end

/-- Model of `json.dumps(v, indent=2)` as used by the Refactor stage prompt. -/
def json_dumps (j : Json) : String :=
  json_dumps_level 0 j

/-- The Analyzer stage prompt template (the f-string of
`analyze_codebase`). -/
def analyze_prompt (content : String) : String :=
  "\n        Analyze the following Python file and list ALL refactor issues:\n\n        - Unused imports  \n        - Duplicate functions  \n        - No docstrings  \n        - Long functions  \n        - Poor naming  \n        - Dead code  \n        - Bad structure  \n\n        Return output as JSON only.\n\n        FILE CONTENT:\n        " ++ content ++ "\n        "

/-- The Refactor stage prompt template (the f-string of
`refactor_files`). -/
def refactor_prompt (issues_dump : String) (content : String) : String :=
  "\n        Based on the following issues, rewrite the ENTIRE file cleanly.\n\n        Issues:\n        " ++ issues_dump ++ "\n\n        Original code:\n        " ++ content ++ "\n\n        Return ONLY the rewritten Python code.\n        "

/-- The Documentation stage prompt template (the f-string of
`add_documentation`). -/
def doc_prompt (content : String) : String :=
  "\n        Add complete professional docstrings to all classes and functions.\n        Preserve logic exactly.\n\n        Return ONLY the new Python file.\n        \n        FILE:\n        " ++ content ++ "\n        "

/-- The Review stage prompt template (the f-string of `reviewer_check`;
the doubled braces of the source denote literal braces). -/
def review_prompt (content : String) : String :=
  "\n        Review this file for:\n        - correctness\n        - code quality\n        - bugs\n        - missing edge cases\n\n        Give a JSON output:\n        \x7b\n          \"score\": 0-10,\n          \"problems\": [...],\n          \"suggestions\": [...]\n        \x7d\n\n        FILE:\n        " ++ content ++ "\n        "

/-- The Analyzer fallback record stored when the reply fails to decode:
`{"issues": ["Unable to parse AI output"], "raw": result}`. -/
def analyze_fallback (result : String) : Json :=
  Json.obj [("issues", Json.arr [Json.str "Unable to parse AI output"]),
            ("raw", Json.str result)]

/-- The Review fallback record stored when the reply fails to decode:
`{"score": 0, "problems": ["Parsing error"], "raw": result}`. -/
def review_fallback (result : String) : Json :=
  Json.obj [("score", Json.num 0),
            ("problems", Json.arr [Json.str "Parsing error"]),
            ("raw", Json.str result)]

/-- Python dict assignment `d[k] = v`: replace in place when the key
exists, else append at the end (insertion order preserved). -/
def dict_insert (d : List (String × Json)) (k : String) (v : Json) :
    List (String × Json) :=
  if d.any (fun kv => kv.1 = k) then
    d.map (fun kv => if kv.1 = k then (k, v) else kv)
  else d ++ [(k, v)]

/-- Python dict lookup `d[k]` (the `none` case is a raised `KeyError`). -/
def dict_lookup (d : List (String × Json)) (k : String) : Option Json :=
  match d with
  | [] => none
  | kv :: rest => if kv.1 = k then some kv.2 else dict_lookup rest k

/-- The reply text the generation service returns to the Analyzer stage
for a file with the given content. -/
def analyze_reply (oracle : String → String → String) (content : String) : String :=
  oracle "You are a Code Analysis Agent." (analyze_prompt content)

/-- The reply text the generation service returns to the Review stage for
a file with the given content. -/
def review_reply (oracle : String → String → String) (content : String) : String :=
  oracle "You are a Code Review Agent." (review_prompt content)

/-- The value the Analyzer stage stores for a file with the given content:
the decode of the reply when it succeeds, else the fallback record. -/
def analyze_entry (jl : String → Option Json) (oracle : String → String → String)
    (content : String) : Json :=
  match jl (analyze_reply oracle content) with
  | some j => j
  | none => analyze_fallback (analyze_reply oracle content)

/-- The value the Review stage stores for a file with the given content. -/
def review_entry (jl : String → Option Json) (oracle : String → String → String)
    (content : String) : Json :=
  match jl (review_reply oracle content) with
  | some j => j
  | none => review_fallback (review_reply oracle content)

/-- One iteration of the `analyze_codebase` loop: read the file, call the
agent, decode with fallback, store under the file path. -/
def analyze_step (jl : String → Option Json) (oracle : String → String → String)
    (w : World) (all_issues : List (String × Json)) (file : String) :
    Except RunError (List (String × Json)) × World :=
  match read_file w file with
  | none => (.error (.readError file), w)
  | some content =>
    let cw := call_agent oracle "You are a Code Analysis Agent." (analyze_prompt content) w
    (.ok (dict_insert all_issues file (analyze_entry jl oracle content)), cw.2)

/-- Body of the `for file in files` loop of `analyze_codebase`. -/
def analyze_loop (jl : String → Option Json) (oracle : String → String → String) :
    List String → World → List (String × Json) →
    Except RunError (List (String × Json)) × World
  | [], w, d => (.ok d, w)
  | file :: rest, w, d =>
    match analyze_step jl oracle w d file with
    | (.ok d2, w2) => analyze_loop jl oracle rest w2 d2
    | (.error e, w2) => (.error e, w2)

/-- Model of `analyze_codebase(files)`: Agent 1, starting from the empty dict. -/
def analyze_codebase (jl : String → Option Json) (oracle : String → String → String)
    (files : List String) (w : World) :
    Except RunError (List (String × Json)) × World :=
  analyze_loop jl oracle files w []

/-- One iteration of the `refactor_files` loop: read the file, index the
analysis dict (KeyError when absent), call the agent, overwrite the file
with the reply verbatim. -/
def refactor_step (oracle : String → String → String)
    (analysis : List (String × Json)) (w : World) (file : String) :
    Except RunError Unit × World :=
  match read_file w file with
  | none => (.error (.readError file), w)
  | some content =>
    match dict_lookup analysis file with
    | none => (.error (.keyError file), w)
    | some issues =>
      let cw := call_agent oracle "You are a Senior Refactor Engineer."
        (refactor_prompt (json_dumps issues) content) w
      (.ok (), write_file cw.2 file cw.1)

/-- Body of the `for file in files` loop of `refactor_files`. -/
def refactor_loop (oracle : String → String → String) :
    List String → List (String × Json) → World → Except RunError Unit × World
  | [], _, w => (.ok (), w)
  | file :: rest, analysis, w =>
    match refactor_step oracle analysis w file with
    | (.ok _, w2) => refactor_loop oracle rest analysis w2
    | (.error e, w2) => (.error e, w2)

/-- Model of `refactor_files(files, analysis)`: Agent 2. -/
def refactor_files (oracle : String → String → String) (files : List String)
    (analysis : List (String × Json)) (w : World) : Except RunError Unit × World :=
  refactor_loop oracle files analysis w

/-- One iteration of the `add_documentation` loop: read the file, call the
agent, overwrite the file with the reply verbatim. -/
def doc_step (oracle : String → String → String) (w : World) (file : String) :
    Except RunError Unit × World :=
  match read_file w file with
  | none => (.error (.readError file), w)
  | some content =>
    let cw := call_agent oracle "You are a Documentation Agent." (doc_prompt content) w
    (.ok (), write_file cw.2 file cw.1)

/-- Body of the `for file in files` loop of `add_documentation`. -/
def doc_loop (oracle : String → String → String) :
    List String → World → Except RunError Unit × World
  | [], w => (.ok (), w)
  | file :: rest, w =>
    match doc_step oracle w file with
    | (.ok _, w2) => doc_loop oracle rest w2
    | (.error e, w2) => (.error e, w2)

/-- Model of `add_documentation(files)`: Agent 3. -/
def add_documentation (oracle : String → String → String) (files : List String)
    (w : World) : Except RunError Unit × World :=
  doc_loop oracle files w

/-- One iteration of the `reviewer_check` loop. -/
def review_step (jl : String → Option Json) (oracle : String → String → String)
    (w : World) (all_reviews : List (String × Json)) (file : String) :
    Except RunError (List (String × Json)) × World :=
  match read_file w file with
  | none => (.error (.readError file), w)
  | some content =>
    let cw := call_agent oracle "You are a Code Review Agent." (review_prompt content) w
    (.ok (dict_insert all_reviews file (review_entry jl oracle content)), cw.2)

/-- Body of the `for file in files` loop of `reviewer_check`. -/
def review_loop (jl : String → Option Json) (oracle : String → String → String) :
    List String → World → List (String × Json) →
    Except RunError (List (String × Json)) × World
  | [], w, d => (.ok d, w)
  | file :: rest, w, d =>
    match review_step jl oracle w d file with
    | (.ok d2, w2) => review_loop jl oracle rest w2 d2
    | (.error e, w2) => (.error e, w2)

/-- Model of `reviewer_check(files)`: Agent 4, starting from the empty dict. -/
def reviewer_check (jl : String → Option Json) (oracle : String → String → String)
    (files : List String) (w : World) :
    Except RunError (List (String × Json)) × World :=
  review_loop jl oracle files w []

/-- Model of `run_pipeline(project_folder)`: enumerate once, then
Analyze → Refactor → Document → Review over the same list; the review
mapping is the final report. -/
def run_pipeline (jl : String → Option Json) (oracle : String → String → String)
    (folder : String) (tree : DirTree) (w : World) :
    Except RunError (List (String × Json)) × World :=
  let files := list_python_files folder tree
  match analyze_codebase jl oracle files w with
  | (.error e, w1) => (.error e, w1)
  | (.ok analysis, w1) =>
    match refactor_files oracle files analysis w1 with
    | (.error e, w2) => (.error e, w2)
    | (.ok _, w2) =>
      match add_documentation oracle files w2 with
      | (.error e, w3) => (.error e, w3)
      | (.ok _, w3) => reviewer_check jl oracle files w3

/-- Whether a stage finished without an uncaught exception. -/
def except_ok {α : Type} : Except RunError α → Bool
  | .ok _ => true
  | .error _ => false

/-- The mapping produced by a stage that finished without error. -/
def ok_dict : Except RunError (List (String × Json)) → List (String × Json)
  | .ok d => d
  | .error _ => []

/-! ### Dictionary lemmas -/

theorem dict_lookup_map_replace (d : List (String × Json)) (k : String) (v : Json)
    (h : d.any (fun kv => kv.1 = k) = true) :
    dict_lookup (d.map (fun kv => if kv.1 = k then (k, v) else kv)) k = some v := by
  induction d with
  | nil => simp at h
  | cons kv rest ih =>
    by_cases hk : kv.1 = k
    · simp [dict_lookup, hk]
    · simp only [List.any_cons, Bool.or_eq_true, decide_eq_true_eq] at h
      rcases h with h | h
      · exact absurd h hk
      · simp only [List.map_cons, if_neg hk, dict_lookup, if_neg hk]
        exact ih (by simpa using h)

theorem dict_lookup_append_self (d : List (String × Json)) (k : String) (v : Json)
    (h : d.any (fun kv => kv.1 = k) = false) :
    dict_lookup (d ++ [(k, v)]) k = some v := by
  induction d with
  | nil => simp [dict_lookup]
  | cons kv rest ih =>
    simp only [List.any_cons, Bool.or_eq_false_iff, decide_eq_false_iff_not] at h
    simp only [List.cons_append, dict_lookup, if_neg h.1]
    exact ih (by simpa using h.2)

/-- Looking up the key just inserted yields the inserted value. -/
theorem dict_lookup_insert_self (d : List (String × Json)) (k : String) (v : Json) :
    dict_lookup (dict_insert d k v) k = some v := by
  unfold dict_insert
  by_cases h : d.any (fun kv => kv.1 = k) = true
  · rw [if_pos h]; exact dict_lookup_map_replace d k v h
  · rw [if_neg h]
    exact dict_lookup_append_self d k v (Bool.eq_false_iff.mpr h)

/-- Inserting one key leaves the lookup of every other key unchanged. -/
theorem dict_lookup_insert_other (d : List (String × Json)) (k : String) (v : Json)
    (g : String) (hg : g ≠ k) :
    dict_lookup (dict_insert d k v) g = dict_lookup d g := by
  have hkg : ¬(k = g) := fun hc => hg hc.symm
  unfold dict_insert
  by_cases h : d.any (fun kv => kv.1 = k) = true
  · rw [if_pos h]
    clear h
    induction d with
    | nil => rfl
    | cons kv rest ih =>
      by_cases hk : kv.1 = k
      · simp only [List.map_cons, if_pos hk, dict_lookup]
        rw [if_neg hkg, if_neg (show ¬(kv.1 = g) by rw [hk]; exact hkg)]
        exact ih
      · simp only [List.map_cons, if_neg hk, dict_lookup]
        by_cases hgk : kv.1 = g
        · rw [if_pos hgk, if_pos hgk]
        · rw [if_neg hgk, if_neg hgk]; exact ih
  · rw [if_neg h]
    clear h
    induction d with
    | nil => simp [dict_lookup, hkg]
    | cons kv rest ih =>
      simp only [List.cons_append, dict_lookup]
      by_cases hgk : kv.1 = g
      · rw [if_pos hgk, if_pos hgk]
      · rw [if_neg hgk, if_neg hgk]; exact ih

/-- Replacing the value of a present key does not change the key list. -/
theorem dict_map_replace_fst (d : List (String × Json)) (k : String) (v : Json) :
    (d.map (fun kv => if kv.1 = k then (k, v) else kv)).map Prod.fst =
      d.map Prod.fst := by
  induction d with
  | nil => rfl
  | cons kv rest ih =>
    by_cases hk : kv.1 = k
    · simp only [List.map_cons, if_pos hk, ih]
      rw [hk]
    · simp only [List.map_cons, if_neg hk, ih]

/-- The keys of an insert: unchanged when the key was present, appended
otherwise. -/
theorem dict_insert_keys (d : List (String × Json)) (k : String) (v : Json) :
    (dict_insert d k v).map Prod.fst =
      if d.any (fun kv => kv.1 = k) then d.map Prod.fst
      else d.map Prod.fst ++ [k] := by
  unfold dict_insert
  by_cases h : d.any (fun kv => kv.1 = k) = true
  · rw [if_pos h, if_pos h, dict_map_replace_fst]
  · rw [if_neg h, if_neg h, List.map_append]
    rfl

/-- Inserting preserves key distinctness. -/
theorem dict_insert_nodup (d : List (String × Json)) (k : String) (v : Json)
    (h : (d.map Prod.fst).Nodup) : ((dict_insert d k v).map Prod.fst).Nodup := by
  rw [dict_insert_keys]
  by_cases ha : d.any (fun kv => kv.1 = k) = true
  · rw [if_pos ha]; exact h
  · rw [if_neg ha]
    have hk : k ∉ d.map Prod.fst := by
      intro hmem
      rcases List.mem_map.mp hmem with ⟨kv, hkv, hfst⟩
      exact ha (List.any_eq_true.mpr ⟨kv, hkv, by simp [hfst]⟩)
    refine List.Nodup.append h (List.nodup_singleton k) ?_
    intro a ha1 ha2
    rw [List.mem_singleton] at ha2
    subst ha2
    exact hk ha1

/-- A key is present after an insert iff it is the inserted key or was
already present. -/
theorem dict_lookup_insert_isSome (d : List (String × Json)) (k : String) (v : Json)
    (g : String) :
    (dict_lookup (dict_insert d k v) g).isSome ↔ g = k ∨ (dict_lookup d g).isSome := by
  by_cases hg : g = k
  · subst hg
    simp [dict_lookup_insert_self]
  · rw [dict_lookup_insert_other d k v g hg]
    simp [hg]

/-! ### Analyzer stage loop invariants -/

/-- The Analyzer loop never touches the filesystem. -/
theorem analyze_loop_fs (jl : String → Option Json) (oracle : String → String → String) :
    ∀ (files : List String) (w : World) (d : List (String × Json)),
      ((analyze_loop jl oracle files w d).2).fs = w.fs := by
  intro files
  induction files with
  | nil => intro w d; rfl
  | cons f rest ih =>
    intro w d
    cases hw : w.fs f with
    | none => simp [analyze_loop, analyze_step, read_file, hw]
    | some c =>
      simp only [analyze_loop, analyze_step, read_file, hw]
      rw [ih]
      rfl

/-- When every file can be read, the Analyzer loop finishes without an
uncaught exception. -/
theorem analyze_loop_ok (jl : String → Option Json) (oracle : String → String → String) :
    ∀ (files : List String) (w : World) (d : List (String × Json)),
      (∀ f ∈ files, (w.fs f).isSome) →
      except_ok (analyze_loop jl oracle files w d).1 = true := by
  intro files
  induction files with
  | nil => intro w d _; rfl
  | cons f rest ih =>
    intro w d hr
    rcases Option.isSome_iff_exists.mp (hr f (List.mem_cons_self f rest)) with ⟨c, hw⟩
    simp only [analyze_loop, analyze_step, read_file, hw]
    exact ih _ _ (fun g hg => hr g (List.mem_cons_of_mem f hg))

/-- When every file can be read, the keys of the Analyzer mapping are the
input files plus the keys already present. -/
theorem analyze_loop_lookup_isSome (jl : String → Option Json)
    (oracle : String → String → String) :
    ∀ (files : List String) (w : World) (d : List (String × Json)) (g : String),
      (∀ f ∈ files, (w.fs f).isSome) →
      ((dict_lookup (ok_dict (analyze_loop jl oracle files w d).1) g).isSome ↔
        (g ∈ files ∨ (dict_lookup d g).isSome)) := by
  intro files
  induction files with
  | nil => intro w d g _; simp [analyze_loop, ok_dict]
  | cons f rest ih =>
    intro w d g hr
    rcases Option.isSome_iff_exists.mp (hr f (List.mem_cons_self f rest)) with ⟨c, hw⟩
    simp only [analyze_loop, analyze_step, read_file, hw]
    rw [ih ((call_agent oracle "You are a Code Analysis Agent." (analyze_prompt c) w).2)
      (dict_insert d f (analyze_entry jl oracle c)) g
      (fun x hx => hr x (List.mem_cons_of_mem f hx))]
    rw [dict_lookup_insert_isSome]
    simp only [List.mem_cons]
    tauto

/-- When every file can be read, the Analyzer mapping has distinct keys:
exactly one entry per file. -/
theorem analyze_loop_nodup (jl : String → Option Json)
    (oracle : String → String → String) :
    ∀ (files : List String) (w : World) (d : List (String × Json)),
      (∀ f ∈ files, (w.fs f).isSome) → (d.map Prod.fst).Nodup →
      ((ok_dict (analyze_loop jl oracle files w d).1).map Prod.fst).Nodup := by
  intro files
  induction files with
  | nil => intro w d _ hd; exact hd
  | cons f rest ih =>
    intro w d hr hd
    rcases Option.isSome_iff_exists.mp (hr f (List.mem_cons_self f rest)) with ⟨c, hw⟩
    simp only [analyze_loop, analyze_step, read_file, hw]
    exact ih _ _ (fun x hx => hr x (List.mem_cons_of_mem f hx))
      (dict_insert_nodup _ _ _ hd)

/-- Keys not among the processed files keep their prior binding. -/
theorem analyze_loop_untouched (jl : String → Option Json)
    (oracle : String → String → String) :
    ∀ (files : List String) (w : World) (d : List (String × Json)) (g : String),
      (∀ f ∈ files, (w.fs f).isSome) → g ∉ files →
      dict_lookup (ok_dict (analyze_loop jl oracle files w d).1) g = dict_lookup d g := by
  intro files
  induction files with
  | nil => intro w d g _ _; rfl
  | cons f rest ih =>
    intro w d g hr hg
    rcases Option.isSome_iff_exists.mp (hr f (List.mem_cons_self f rest)) with ⟨c, hw⟩
    simp only [analyze_loop, analyze_step, read_file, hw]
    rw [ih ((call_agent oracle "You are a Code Analysis Agent." (analyze_prompt c) w).2)
      (dict_insert d f (analyze_entry jl oracle c)) g
      (fun x hx => hr x (List.mem_cons_of_mem f hx))
      (fun hc => hg (List.mem_cons_of_mem f hc))]
    exact dict_lookup_insert_other _ _ _ _ (fun hc => hg (hc ▸ List.mem_cons_self f rest))

/-- Each processed file is bound to its decode-or-fallback entry computed
from the file content. -/
theorem analyze_loop_entry (jl : String → Option Json)
    (oracle : String → String → String) :
    ∀ (files : List String) (w : World) (d : List (String × Json)) (f : String) (c : String),
      (∀ g ∈ files, (w.fs g).isSome) → f ∈ files → w.fs f = some c →
      dict_lookup (ok_dict (analyze_loop jl oracle files w d).1) f =
        some (analyze_entry jl oracle c) := by
  intro files
  induction files with
  | nil => intro w d f c _ hf _; exact absurd hf (List.not_mem_nil f)
  | cons f0 rest ih =>
    intro w d f c hr hf hfc
    rcases Option.isSome_iff_exists.mp (hr f0 (List.mem_cons_self f0 rest)) with ⟨c0, hw0⟩
    simp only [analyze_loop, analyze_step, read_file, hw0]
    by_cases hmem : f ∈ rest
    · exact ih _ _ f c (fun x hx => hr x (List.mem_cons_of_mem f0 hx)) hmem hfc
    · have hf0 : f = f0 := by
        rcases List.mem_cons.mp hf with h | h
        · exact h
        · exact absurd h hmem
      subst hf0
      have hc0 : c0 = c := by
        rw [hw0] at hfc
        exact (Option.some.injEq _ _).mp hfc
      subst hc0
      rw [analyze_loop_untouched jl oracle rest
        ((call_agent oracle "You are a Code Analysis Agent." (analyze_prompt c0) w).2)
        (dict_insert d f (analyze_entry jl oracle c0)) f
        (fun x hx => hr x (List.mem_cons_of_mem f hx)) hmem]
      exact dict_lookup_insert_self d f (analyze_entry jl oracle c0)

/-! ### Review stage loop invariants -/

/-- The Review loop never touches the filesystem. -/
theorem review_loop_fs (jl : String → Option Json) (oracle : String → String → String) :
    ∀ (files : List String) (w : World) (d : List (String × Json)),
      ((review_loop jl oracle files w d).2).fs = w.fs := by
  intro files
  induction files with
  | nil => intro w d; rfl
  | cons f rest ih =>
    intro w d
    cases hw : w.fs f with
    | none => simp [review_loop, review_step, read_file, hw]
    | some c =>
      simp only [review_loop, review_step, read_file, hw]
      rw [ih]
      rfl

/-- When every file can be read, the Review loop finishes without an
uncaught exception. -/
theorem review_loop_ok (jl : String → Option Json) (oracle : String → String → String) :
    ∀ (files : List String) (w : World) (d : List (String × Json)),
      (∀ f ∈ files, (w.fs f).isSome) →
      except_ok (review_loop jl oracle files w d).1 = true := by
  intro files
  induction files with
  | nil => intro w d _; rfl
  | cons f rest ih =>
    intro w d hr
    rcases Option.isSome_iff_exists.mp (hr f (List.mem_cons_self f rest)) with ⟨c, hw⟩
    simp only [review_loop, review_step, read_file, hw]
    exact ih _ _ (fun g hg => hr g (List.mem_cons_of_mem f hg))

/-- When every file can be read, the keys of the Review mapping are the
input files plus the keys already present. -/
theorem review_loop_lookup_isSome (jl : String → Option Json)
    (oracle : String → String → String) :
    ∀ (files : List String) (w : World) (d : List (String × Json)) (g : String),
      (∀ f ∈ files, (w.fs f).isSome) →
      ((dict_lookup (ok_dict (review_loop jl oracle files w d).1) g).isSome ↔
        (g ∈ files ∨ (dict_lookup d g).isSome)) := by
  intro files
  induction files with
  | nil => intro w d g _; simp [review_loop, ok_dict]
  | cons f rest ih =>
    intro w d g hr
    rcases Option.isSome_iff_exists.mp (hr f (List.mem_cons_self f rest)) with ⟨c, hw⟩
    simp only [review_loop, review_step, read_file, hw]
    rw [ih ((call_agent oracle "You are a Code Review Agent." (review_prompt c) w).2)
      (dict_insert d f (review_entry jl oracle c)) g
      (fun x hx => hr x (List.mem_cons_of_mem f hx))]
    rw [dict_lookup_insert_isSome]
    simp only [List.mem_cons]
    tauto

/-- When every file can be read, the Review mapping has distinct keys:
exactly one entry per file. -/
theorem review_loop_nodup (jl : String → Option Json)
    (oracle : String → String → String) :
    ∀ (files : List String) (w : World) (d : List (String × Json)),
      (∀ f ∈ files, (w.fs f).isSome) → (d.map Prod.fst).Nodup →
      ((ok_dict (review_loop jl oracle files w d).1).map Prod.fst).Nodup := by
  intro files
  induction files with
  | nil => intro w d _ hd; exact hd
  | cons f rest ih =>
    intro w d hr hd
    rcases Option.isSome_iff_exists.mp (hr f (List.mem_cons_self f rest)) with ⟨c, hw⟩
    simp only [review_loop, review_step, read_file, hw]
    exact ih _ _ (fun x hx => hr x (List.mem_cons_of_mem f hx))
      (dict_insert_nodup _ _ _ hd)

/-- Keys not among the processed files keep their prior binding. -/
theorem review_loop_untouched (jl : String → Option Json)
    (oracle : String → String → String) :
    ∀ (files : List String) (w : World) (d : List (String × Json)) (g : String),
      (∀ f ∈ files, (w.fs f).isSome) → g ∉ files →
      dict_lookup (ok_dict (review_loop jl oracle files w d).1) g = dict_lookup d g := by
  intro files
  induction files with
  | nil => intro w d g _ _; rfl
  | cons f rest ih =>
    intro w d g hr hg
    rcases Option.isSome_iff_exists.mp (hr f (List.mem_cons_self f rest)) with ⟨c, hw⟩
    simp only [review_loop, review_step, read_file, hw]
    rw [ih ((call_agent oracle "You are a Code Review Agent." (review_prompt c) w).2)
      (dict_insert d f (review_entry jl oracle c)) g
      (fun x hx => hr x (List.mem_cons_of_mem f hx))
      (fun hc => hg (List.mem_cons_of_mem f hc))]
    exact dict_lookup_insert_other _ _ _ _ (fun hc => hg (hc ▸ List.mem_cons_self f rest))

/-- Each processed file is bound to its decode-or-fallback review entry
computed from the file content. -/
theorem review_loop_entry (jl : String → Option Json)
    (oracle : String → String → String) :
    ∀ (files : List String) (w : World) (d : List (String × Json)) (f : String) (c : String),
      (∀ g ∈ files, (w.fs g).isSome) → f ∈ files → w.fs f = some c →
      dict_lookup (ok_dict (review_loop jl oracle files w d).1) f =
        some (review_entry jl oracle c) := by
  intro files
  induction files with
  | nil => intro w d f c _ hf _; exact absurd hf (List.not_mem_nil f)
  | cons f0 rest ih =>
    intro w d f c hr hf hfc
    rcases Option.isSome_iff_exists.mp (hr f0 (List.mem_cons_self f0 rest)) with ⟨c0, hw0⟩
    simp only [review_loop, review_step, read_file, hw0]
    by_cases hmem : f ∈ rest
    · exact ih _ _ f c (fun x hx => hr x (List.mem_cons_of_mem f0 hx)) hmem hfc
    · have hf0 : f = f0 := by
        rcases List.mem_cons.mp hf with h | h
        · exact h
        · exact absurd h hmem
      subst hf0
      have hc0 : c0 = c := by
        rw [hw0] at hfc
        exact (Option.some.injEq _ _).mp hfc
      subst hc0
      rw [review_loop_untouched jl oracle rest
        ((call_agent oracle "You are a Code Review Agent." (review_prompt c0) w).2)
        (dict_insert d f (review_entry jl oracle c0)) f
        (fun x hx => hr x (List.mem_cons_of_mem f hx)) hmem]
      exact dict_lookup_insert_self d f (review_entry jl oracle c0)

/-! ### Refactor and Documentation stage frame lemmas -/

/-- The Refactor loop writes only to the files it is given: the content of
any other path is untouched, whether or not the loop aborts. -/
theorem refactor_loop_frame (oracle : String → String → String)
    (analysis : List (String × Json)) :
    ∀ (files : List String) (w : World) (g : String), g ∉ files →
      (((refactor_loop oracle files analysis w).2).fs g) = w.fs g := by
  intro files
  induction files with
  | nil => intro w g _; rfl
  | cons f rest ih =>
    intro w g hg
    have hgf : g ≠ f := fun hc => hg (hc ▸ List.mem_cons_self f rest)
    have hgr : g ∉ rest := fun hc => hg (List.mem_cons_of_mem f hc)
    cases hw : w.fs f with
    | none => simp [refactor_loop, refactor_step, read_file, hw]
    | some c =>
      cases hd : dict_lookup analysis f with
      | none => simp [refactor_loop, refactor_step, read_file, hw, hd]
      | some issues =>
        simp only [refactor_loop, refactor_step, read_file, hw, hd]
        rw [ih _ g hgr]
        simp [write_file, call_agent, hgf]

/-- The Documentation loop writes only to the files it is given. -/
theorem doc_loop_frame (oracle : String → String → String) :
    ∀ (files : List String) (w : World) (g : String), g ∉ files →
      (((doc_loop oracle files w).2).fs g) = w.fs g := by
  intro files
  induction files with
  | nil => intro w g _; rfl
  | cons f rest ih =>
    intro w g hg
    have hgf : g ≠ f := fun hc => hg (hc ▸ List.mem_cons_self f rest)
    have hgr : g ∉ rest := fun hc => hg (List.mem_cons_of_mem f hc)
    cases hw : w.fs f with
    | none => simp [doc_loop, doc_step, read_file, hw]
    | some c =>
      simp only [doc_loop, doc_step, read_file, hw]
      rw [ih _ g hgr]
      simp [write_file, call_agent, hgf]

/-- The Refactor loop over a concatenation: run the first part, and when
it finishes cleanly continue with the second from the reached state. -/
theorem refactor_loop_append (oracle : String → String → String)
    (analysis : List (String × Json)) :
    ∀ (l1 l2 : List String) (w : World),
      refactor_loop oracle (l1 ++ l2) analysis w =
        match refactor_loop oracle l1 analysis w with
        | (.ok _, w1) => refactor_loop oracle l2 analysis w1
        | (.error e, w1) => (.error e, w1) := by
  intro l1
  induction l1 with
  | nil => intro l2 w; rfl
  | cons f rest ih =>
    intro l2 w
    simp only [List.cons_append, refactor_loop]
    cases refactor_step oracle analysis w f with
    | mk r w2 =>
      cases r with
      | ok u => simp only []; exact ih l2 w2
      | error e => rfl

/-! ### Concrete fixtures for witnesses -/

/-- A generation service that always replies with fixed non-JSON text. -/
def oracle_const : String → String → String := fun _ _ => "rewritten"

/-- A generation service replying a JSON array to the Analyzer persona and
a JSON string to every other persona. -/
def oracle_json : String → String → String := fun system_msg _ =>
  if system_msg = "You are a Code Analysis Agent." then "[1]" else "\"ok\""

/-- A decoder accepting exactly two replies; everything else fails. -/
def jl_stub : String → Option Json := fun s =>
  if s = "[1]" then some (Json.arr [Json.num 1])
  else if s = "\"ok\"" then some (Json.str "ok")
  else none

/-- A disk holding one Python file. -/
def w_one : World :=
  { fs := fun p => if p = "proj/a.py" then some "print(1)\n" else none, calls := [] }

/-- An analysis mapping with an entry for the one file. -/
def analysis_one : List (String × Json) := [("proj/a.py", Json.null)]

/-! ### Claims -/

/-- Claim C9: running the Analyzer stage or the Review stage leaves the
content of every file on disk unchanged, for every file list and every
sequence of client replies; these two stages never write. -/
theorem analyze_review_leave_disk_unchanged (jl : String → Option Json)
    (oracle : String → String → String) (files : List String) (w : World) :
    ((analyze_codebase jl oracle files w).2).fs = w.fs ∧
    ((reviewer_check jl oracle files w).2).fs = w.fs :=
  ⟨analyze_loop_fs jl oracle files w [], review_loop_fs jl oracle files w []⟩

/-- Claim C2: write-through — when the Refactor stage processes file F
whose read succeeds and whose analysis entry exists, the step completes
and immediately afterwards the content of F on disk is exactly the reply
string the generation client returned, verbatim. -/
theorem refactor_write_through (oracle : String → String → String)
    (analysis : List (String × Json)) (w : World) (file content : String)
    (issues : Json)
    (hread : read_file w file = some content)
    (hkey : dict_lookup analysis file = some issues) :
    (refactor_step oracle analysis w file).1 = .ok () ∧
    ((refactor_step oracle analysis w file).2).fs file =
      some (oracle "You are a Senior Refactor Engineer."
        (refactor_prompt (json_dumps issues) content)) := by
  simp [refactor_step, hread, hkey, write_file, call_agent]

/-- Witness for C2 at a concrete file, disk and reply. -/
theorem refactor_write_through_witness :
    read_file w_one "proj/a.py" = some "print(1)\n" ∧
    dict_lookup analysis_one "proj/a.py" = some Json.null ∧
    ((refactor_step oracle_const analysis_one w_one "proj/a.py").1 = .ok () ∧
      ((refactor_step oracle_const analysis_one w_one "proj/a.py").2).fs "proj/a.py" =
        some (oracle_const "You are a Senior Refactor Engineer."
          (refactor_prompt (json_dumps Json.null) "print(1)\n"))) :=
  ⟨rfl, rfl, refactor_write_through oracle_const analysis_one w_one "proj/a.py"
    "print(1)\n" Json.null rfl rfl⟩

/-- Claim C6: when the Refactor stage reaches a file whose path is absent
from the analysis mapping, it raises a missing-key error and halts at
once: the rest of the list is not processed and the world — in particular
the on-disk content of that file — is exactly as before. -/
theorem refactor_missing_key_halts (oracle : String → String → String)
    (analysis : List (String × Json)) (w : World) (file content : String)
    (rest : List String)
    (hread : read_file w file = some content)
    (hkey : dict_lookup analysis file = none) :
    refactor_files oracle (file :: rest) analysis w =
      (.error (.keyError file), w) := by
  simp [refactor_files, refactor_loop, refactor_step, hread, hkey]

/-- Witness for C6: an analysis mapping with no entry for the file. -/
theorem refactor_missing_key_halts_witness :
    read_file w_one "proj/a.py" = some "print(1)\n" ∧
    dict_lookup [] "proj/a.py" = none ∧
    refactor_files oracle_const ["proj/a.py"] [] w_one =
      (.error (.keyError "proj/a.py"), w_one) :=
  ⟨rfl, rfl, refactor_missing_key_halts oracle_const [] w_one "proj/a.py"
    "print(1)\n" [] rfl rfl⟩

/-- Claim C1: when every listed file can be read, the Analyzer and Review
stages finish without an uncaught exception and return mappings with
exactly one entry per input file; the entry of each file is the structured
decode of the service reply when decoding succeeds and otherwise the
fallback record of the stage (for Review: score 0, a fixed parsing-error
marker, and the raw reply under a raw key). -/
theorem analyzer_reviewer_mapping_contract (jl : String → Option Json)
    (oracle : String → String → String) (files : List String) (w : World)
    (hread : ∀ f ∈ files, (w.fs f).isSome) :
    except_ok (analyze_codebase jl oracle files w).1 = true ∧
    except_ok (reviewer_check jl oracle files w).1 = true ∧
    (∀ g, (dict_lookup (ok_dict (analyze_codebase jl oracle files w).1) g).isSome ↔
      g ∈ files) ∧
    (∀ g, (dict_lookup (ok_dict (reviewer_check jl oracle files w).1) g).isSome ↔
      g ∈ files) ∧
    ((ok_dict (analyze_codebase jl oracle files w).1).map Prod.fst).Nodup ∧
    ((ok_dict (reviewer_check jl oracle files w).1).map Prod.fst).Nodup ∧
    (∀ f c, f ∈ files → w.fs f = some c →
      dict_lookup (ok_dict (analyze_codebase jl oracle files w).1) f =
          some (analyze_entry jl oracle c) ∧
        dict_lookup (ok_dict (reviewer_check jl oracle files w).1) f =
          some (review_entry jl oracle c) ∧
        ((jl (analyze_reply oracle c) = none ∧
            analyze_entry jl oracle c = analyze_fallback (analyze_reply oracle c)) ∨
          jl (analyze_reply oracle c) = some (analyze_entry jl oracle c)) ∧
        ((jl (review_reply oracle c) = none ∧
            review_entry jl oracle c = review_fallback (review_reply oracle c)) ∨
          jl (review_reply oracle c) = some (review_entry jl oracle c))) := by
  refine ⟨analyze_loop_ok jl oracle files w [] hread,
    review_loop_ok jl oracle files w [] hread, ?_, ?_,
    analyze_loop_nodup jl oracle files w [] hread List.nodup_nil,
    review_loop_nodup jl oracle files w [] hread List.nodup_nil, ?_⟩
  · intro g
    have h := analyze_loop_lookup_isSome jl oracle files w [] g hread
    simpa [analyze_codebase, dict_lookup] using h
  · intro g
    have h := review_loop_lookup_isSome jl oracle files w [] g hread
    simpa [reviewer_check, dict_lookup] using h
  · intro f c hf hc
    refine ⟨analyze_loop_entry jl oracle files w [] f c hread hf hc,
      review_loop_entry jl oracle files w [] f c hread hf hc, ?_, ?_⟩
    · cases hjl : jl (analyze_reply oracle c) with
      | none => exact Or.inl ⟨rfl, by simp [analyze_entry, hjl]⟩
      | some j => exact Or.inr (by simp [analyze_entry, hjl])
    · cases hjl : jl (review_reply oracle c) with
      | none => exact Or.inl ⟨rfl, by simp [review_entry, hjl]⟩
      | some j => exact Or.inr (by simp [review_entry, hjl])

/-- Witness for C1 at a concrete disk, decoder and service. -/
theorem analyzer_reviewer_mapping_contract_witness :
    (∀ f ∈ ["proj/a.py"], ((w_one.fs f).isSome = true)) ∧
    except_ok (analyze_codebase jl_stub oracle_json ["proj/a.py"] w_one).1 = true ∧
    except_ok (reviewer_check jl_stub oracle_json ["proj/a.py"] w_one).1 = true ∧
    (dict_lookup
      (ok_dict (analyze_codebase jl_stub oracle_json ["proj/a.py"] w_one).1)
      "proj/a.py").isSome = true := by
  have h := analyzer_reviewer_mapping_contract jl_stub oracle_json ["proj/a.py"]
    w_one (by decide)
  exact ⟨by decide, h.1, h.2.1, (h.2.2.1 "proj/a.py").mpr (by simp)⟩

/-- Claim C3: when the Analyzer reply for a file is not valid JSON, the
stored entry is exactly the fallback record with the fixed marker under
the issues key and the raw reply preserved verbatim under the raw key. -/
theorem analyze_invalid_reply_fallback (jl : String → Option Json)
    (oracle : String → String → String) (files : List String) (w : World)
    (f c : String)
    (hread : ∀ g ∈ files, (w.fs g).isSome)
    (hf : f ∈ files) (hc : w.fs f = some c)
    (hbad : jl (analyze_reply oracle c) = none) :
    dict_lookup (ok_dict (analyze_codebase jl oracle files w).1) f =
      some (Json.obj [("issues", Json.arr [Json.str "Unable to parse AI output"]),
        ("raw", Json.str (analyze_reply oracle c))]) := by
  simp only [analyze_codebase]
  rw [analyze_loop_entry jl oracle files w [] f c hread hf hc]
  simp [analyze_entry, hbad, analyze_fallback]

/-- Witness for C3: a reply the decoder rejects. -/
theorem analyze_invalid_reply_fallback_witness :
    (∀ g ∈ ["proj/a.py"], ((w_one.fs g).isSome = true)) ∧
    jl_stub (analyze_reply oracle_const "print(1)\n") = none ∧
    dict_lookup (ok_dict (analyze_codebase jl_stub oracle_const ["proj/a.py"] w_one).1)
        "proj/a.py" =
      some (Json.obj [("issues", Json.arr [Json.str "Unable to parse AI output"]),
        ("raw", Json.str (analyze_reply oracle_const "print(1)\n"))]) :=
  ⟨by decide, rfl, analyze_invalid_reply_fallback jl_stub oracle_const ["proj/a.py"]
    w_one "proj/a.py" "print(1)\n" (by decide) (by simp) rfl rfl⟩

/-- Claim C10: a reply that decodes to any JSON value — object or not —
is stored as-is as the entry of the file by both the Analyzer and the Review
stage, with no shape validation and no fallback. -/
theorem decoded_nonobject_stored_verbatim (jl : String → Option Json)
    (oracle : String → String → String) (files : List String) (w : World)
    (f c : String) (v u : Json)
    (hread : ∀ g ∈ files, (w.fs g).isSome)
    (hf : f ∈ files) (hc : w.fs f = some c)
    (ha : jl (analyze_reply oracle c) = some v)
    (hr : jl (review_reply oracle c) = some u) :
    dict_lookup (ok_dict (analyze_codebase jl oracle files w).1) f = some v ∧
    dict_lookup (ok_dict (reviewer_check jl oracle files w).1) f = some u := by
  constructor
  · simp only [analyze_codebase]
    rw [analyze_loop_entry jl oracle files w [] f c hread hf hc]
    simp [analyze_entry, ha]
  · simp only [reviewer_check]
    rw [review_loop_entry jl oracle files w [] f c hread hf hc]
    simp [review_entry, hr]

/-- Witness for C10: a JSON array for the Analyzer and a bare JSON string
for Review — neither carries score, problems or suggestions keys. -/
theorem decoded_nonobject_stored_verbatim_witness :
    (∀ g ∈ ["proj/a.py"], ((w_one.fs g).isSome = true)) ∧
    jl_stub (analyze_reply oracle_json "print(1)\n") = some (Json.arr [Json.num 1]) ∧
    jl_stub (review_reply oracle_json "print(1)\n") = some (Json.str "ok") ∧
    (dict_lookup (ok_dict (analyze_codebase jl_stub oracle_json ["proj/a.py"] w_one).1)
        "proj/a.py" = some (Json.arr [Json.num 1]) ∧
      dict_lookup (ok_dict (reviewer_check jl_stub oracle_json ["proj/a.py"] w_one).1)
        "proj/a.py" = some (Json.str "ok")) :=
  ⟨by decide, rfl, rfl, decoded_nonobject_stored_verbatim jl_stub oracle_json
    ["proj/a.py"] w_one "proj/a.py" "print(1)\n" (Json.arr [Json.num 1])
    (Json.str "ok") (by decide) (by simp) rfl rfl rfl⟩

/-- Claim C4: in one pipeline invocation the file list is
`pre ++ f :: post`; the Refactor stage processes `pre`, writes `f`
(reaching world `wb`), then processes `post`, and the Documentation stage
then processes `pre` before reading `f`.  Since `f` occurs once in the
list, the content the Documentation stage reads for `f` is exactly the
content the Refactor stage wrote for `f`; moreover these pieces compose to
the whole Refactor stage run. -/
theorem documentation_reads_refactor_output (oracle : String → String → String)
    (analysis : List (String × Json)) (pre post : List String) (f : String)
    (w1 wa wb w2 w3 : World)
    (hpre : f ∉ pre) (hpost : f ∉ post)
    (h1 : refactor_loop oracle pre analysis w1 = (.ok (), wa))
    (h2 : refactor_step oracle analysis wa f = (.ok (), wb))
    (h3 : refactor_loop oracle post analysis wb = (.ok (), w2))
    (h4 : doc_loop oracle pre w2 = (.ok (), w3)) :
    refactor_files oracle (pre ++ f :: post) analysis w1 = (.ok (), w2) ∧
    read_file w3 f = wb.fs f := by
  constructor
  · show refactor_loop oracle (pre ++ f :: post) analysis w1 = (.ok (), w2)
    rw [refactor_loop_append oracle analysis pre (f :: post) w1, h1]
    simp only [refactor_loop, h2]
    exact h3
  · have e1 : w2.fs f = wb.fs f := by
      have h := refactor_loop_frame oracle analysis post wb f hpost
      rw [h3] at h
      exact h
    have e2 : w3.fs f = w2.fs f := by
      have h := doc_loop_frame oracle pre w2 f hpre
      rw [h4] at h
      exact h
    show w3.fs f = wb.fs f
    rw [e2, e1]

/-- Witness for C4 with a single-file list (`pre = post = []`). -/
theorem documentation_reads_refactor_output_witness :
    ("proj/a.py" ∉ ([] : List String)) ∧
    refactor_loop oracle_const [] analysis_one w_one = (.ok (), w_one) ∧
    refactor_step oracle_const analysis_one w_one "proj/a.py" =
      (.ok (), (refactor_step oracle_const analysis_one w_one "proj/a.py").2) ∧
    (refactor_files oracle_const ["proj/a.py"] analysis_one w_one =
        (.ok (), (refactor_step oracle_const analysis_one w_one "proj/a.py").2) ∧
      read_file (refactor_step oracle_const analysis_one w_one "proj/a.py").2 "proj/a.py" =
        ((refactor_step oracle_const analysis_one w_one "proj/a.py").2).fs "proj/a.py") := by
  refine ⟨by simp, rfl, rfl, ?_⟩
  exact documentation_reads_refactor_output oracle_const analysis_one [] [] "proj/a.py"
    w_one w_one (refactor_step oracle_const analysis_one w_one "proj/a.py").2
    (refactor_step oracle_const analysis_one w_one "proj/a.py").2
    (refactor_step oracle_const analysis_one w_one "proj/a.py").2
    (by simp) (by simp) rfl rfl rfl rfl

/-! ### Enumeration (claim C5) -/

/-- Filtering the files of one directory by suffix before joining equals
tagging them with the directory, filtering by name, and joining. -/
theorem py_filter_per_dir (root : String) (filenames : List String) :
    ((filenames.map (fun file => (root, file))).filter
        (fun e => str_ends_with e.2 ".py")).map (fun e => os_path_join e.1 e.2) =
      (filenames.filter (fun file => str_ends_with file ".py")).map
        (fun file => os_path_join root file) := by
  induction filenames with
  | nil => rfl
  | cons a l ih =>
    by_cases h : str_ends_with a ".py" = true
    · simp [List.filter_cons, h, ih]
    · simp [List.filter_cons, h, ih]

/-- Size-bounded mutual induction: over a fully readable tree (no
traversal errors) the walk-and-filter of the source equals filtering all
files under the directory by name suffix and joining their paths. -/
theorem walk_py_spec : ∀ n : Nat,
    (∀ (t : DirTree) (root : String), sizeOf t ≤ n → all_readable t = true →
      (os_walk root t).flatMap
          (fun rf => (rf.2.filter (fun file => str_ends_with file ".py")).map
            (fun file => os_path_join rf.1 file)) =
        ((all_entries root t).filter (fun e => str_ends_with e.2 ".py")).map
          (fun e => os_path_join e.1 e.2)) ∧
    (∀ (l : List (String × DirTree)) (root : String), sizeOf l ≤ n →
      all_readable_list l = true →
      (os_walk_list root l).flatMap
          (fun rf => (rf.2.filter (fun file => str_ends_with file ".py")).map
            (fun file => os_path_join rf.1 file)) =
        ((all_entries_list root l).filter (fun e => str_ends_with e.2 ".py")).map
          (fun e => os_path_join e.1 e.2)) := by
  intro n
  induction n with
  | zero =>
    constructor
    · intro t root ht _
      cases t with
      | node r fs sub =>
        simp only [DirTree.node.sizeOf_spec] at ht
        omega
    · intro l root hl _
      cases l with
      | nil => rfl
      | cons nt rest =>
        simp only [List.cons.sizeOf_spec] at hl
        omega
  | succ n ih =>
    obtain ⟨ihT, ihL⟩ := ih
    constructor
    · intro t root ht hrd
      cases t with
      | node r fs sub =>
        simp only [all_readable, Bool.and_eq_true] at hrd
        obtain ⟨hr1, hr2⟩ := hrd
        have hsub : sizeOf sub ≤ n := by
          simp only [DirTree.node.sizeOf_spec] at ht
          omega
        subst hr1
        simp only [os_walk, all_entries, if_true]
        rw [List.flatMap_cons, List.filter_append, List.map_append, py_filter_per_dir]
        rw [ihL sub root hsub hr2]
    · intro l root hl hrd
      cases l with
      | nil => rfl
      | cons nt rest =>
        simp only [all_readable_list, Bool.and_eq_true] at hrd
        obtain ⟨hr1, hr2⟩ := hrd
        have hb1 : sizeOf nt.2 ≤ n := by
          simp only [List.cons.sizeOf_spec] at hl
          obtain ⟨name, t⟩ := nt
          simp only [Prod.mk.sizeOf_spec] at hl
          simp only []
          omega
        have hb2 : sizeOf rest ≤ n := by
          simp only [List.cons.sizeOf_spec] at hl
          omega
        simp only [os_walk_list, all_entries_list]
        rw [List.flatMap_append, List.filter_append, List.map_append]
        rw [ihT nt.2 (os_path_join root nt.1) hb1 hr1]
        rw [ihL rest root hb2 hr2]

/-- Claim C5: over a directory tree whose every directory can be scanned,
enumeration returns exactly the files under the root (recursively) whose
names end in `.py`, and no others, in traversal order with their joined
paths. -/
theorem list_python_files_exact (folder : String) (tree : DirTree)
    (h : all_readable tree = true) :
    list_python_files folder tree =
      ((all_entries folder tree).filter (fun e => str_ends_with e.2 ".py")).map
        (fun e => os_path_join e.1 e.2) := by
  simp only [list_python_files]
  exact (walk_py_spec (sizeOf tree)).1 tree folder le_rfl h

/-- Witness for C5 on a two-level tree with one non-Python file. -/
theorem list_python_files_exact_witness :
    all_readable (DirTree.node true ["a.py", "b.txt"]
        [("sub", DirTree.node true ["c.py"] [])]) = true ∧
    list_python_files "root" (DirTree.node true ["a.py", "b.txt"]
        [("sub", DirTree.node true ["c.py"] [])]) =
      ((all_entries "root" (DirTree.node true ["a.py", "b.txt"]
          [("sub", DirTree.node true ["c.py"] [])])).filter
        (fun e => str_ends_with e.2 ".py")).map (fun e => os_path_join e.1 e.2) :=
  ⟨by decide, list_python_files_exact "root" (DirTree.node true ["a.py", "b.txt"]
    [("sub", DirTree.node true ["c.py"] [])]) (by decide)⟩

/-! ### Traversal errors (claim C7) and the end-to-end scenario (claim C8) -/

/-- A tree whose subdirectory cannot be scanned (its scan raises) and
holds a Python file. -/
def tree_bad : DirTree :=
  DirTree.node true ["ok.py"] [("locked", DirTree.node false ["hidden.py"] [])]

/-- Counterexample to claim C7: a traversal error does not abort
enumeration.  `tree_bad` contains a directory whose scan fails (so the
tree is not fully readable) and a Python file inside it, yet
`list_python_files` completes normally, returning only the readable
part and silently skipping the failed subtree. -/
theorem traversal_error_not_fatal_cex :
    all_readable tree_bad = false ∧
    ("r/locked", "hidden.py") ∈ all_entries "r" tree_bad ∧
    list_python_files "r" tree_bad = ["r/ok.py"] :=
  ⟨by decide, by decide, by decide⟩

/-- Claim C7 (amended): under the default `onerror=None` of `os.walk`, a
directory whose scan raises yields nothing and is not recursed into, and
removing such a directory from a sibling list leaves the walk unchanged —
traversal errors are silently ignored, never fatal. -/
theorem walk_unreadable_silently_skipped (root : String) (filenames : List String)
    (subdirs : List (String × DirTree)) :
    os_walk root (DirTree.node false filenames subdirs) = [] ∧
    ∀ (pre post : List (String × DirTree)) (name : String),
      os_walk_list root (pre ++ (name, DirTree.node false filenames subdirs) :: post) =
        os_walk_list root (pre ++ post) := by
  constructor
  · simp [os_walk]
  · intro pre post name
    induction pre with
    | nil => simp [os_walk_list, os_walk]
    | cons p rest ih =>
      simp only [List.cons_append, os_walk_list, List.append_eq]
      rw [ih]

/-- The directory of the C8 scenario: one Python file, one other file. -/
def tree_two : DirTree := DirTree.node true ["a.py", "b.txt"] []

/-- The disk of the C8 scenario. -/
def w_two : World :=
  { fs := fun p =>
      if p = "root/a.py" then some "print(1)\n"
      else if p = "root/b.txt" then some "data" else none,
    calls := [] }

/-- Claim C8: on a directory with one `.py` file and one other file,
enumeration returns only the former, and the full pipeline issues exactly
four generation calls — one per stage, in stage order, as the personas of
the logged calls show — and none for the excluded file. -/
theorem pipeline_four_calls (jl : String → Option Json)
    (oracle : String → String → String) :
    list_python_files "root" tree_two = ["root/a.py"] ∧
    ((run_pipeline jl oracle "root" tree_two w_two).2).calls.map Prod.fst =
      ["You are a Code Analysis Agent.", "You are a Senior Refactor Engineer.",
        "You are a Documentation Agent.", "You are a Code Review Agent."] ∧
    except_ok (run_pipeline jl oracle "root" tree_two w_two).1 = true := by
  have hfiles : list_python_files "root" tree_two = ["root/a.py"] := by decide
  have hjoin : os_path_join "root" "a.py" = "root/a.py" := by decide
  refine ⟨hfiles, ?_, ?_⟩ <;>
    simp [run_pipeline, hfiles, hjoin, analyze_codebase, analyze_loop, analyze_step,
      refactor_files, refactor_loop, refactor_step, add_documentation, doc_loop,
      doc_step, reviewer_check, review_loop, review_step, read_file, call_agent,
      write_file, dict_insert, dict_lookup, except_ok, w_two]
